import Mathlib

/-!
Verification of the alarm-modem repository (Rust sources src/main.rs,
src/audio.rs, src/config.rs) against its natural-language specification.

Shallow embedding conventions:
- Rust f32 arithmetic is modeled with exact rationals (ℚ); the claims under
  scrutiny concern control flow, bounds and scan order, not rounding.
- Machine integers are modeled as Nat / Int with explicit wrap or saturation
  where the Rust cast semantics require it.
- Time (std::time::Instant / Duration) is modeled as Nat milliseconds; the
  elapsed computation of a saturating monotonic clock becomes truncated Nat
  subtraction.
- The serial port behind the dyn SerialPort trait object is modeled as a
  stream of read events supplied to the loops that poll it.
-/

namespace AlarmModem

/-! ## Constants (src/audio.rs lines 11-18, src/main.rs lines 10-22) -/

/-- PCM_SAMPLE_RATE (8000.0 f32, exact in ℚ). -/
def PCM_SAMPLE_RATE : ℚ := 8000

/-- FFT_SAMPLE_SIZE, also the steady-state read buffer length (1024). -/
def FFT_SAMPLE_SIZE : Nat := 1024

/-- TONE_MIN_FREQ (1640.0). -/
def TONE_MIN_FREQ : ℚ := 1640

/-- TONE_MAX_FREQ (1720.0). -/
def TONE_MAX_FREQ : ℚ := 1720

/-- TONE_MIN_POWER (100.0). -/
def TONE_MIN_POWER : ℚ := 100

/-- TONE_MAX_POWER (300.0). -/
def TONE_MAX_POWER : ℚ := 300

/-- DETECTION_INTERVAL = Duration::from_secs(5), in milliseconds. -/
def DETECTION_INTERVAL : Nat := 5000

/-- DURATION_IO_TIMEOUT = Duration::from_secs(2), in milliseconds. -/
def DURATION_IO_TIMEOUT : Nat := 2000

/-- DURATION_CMD_READ_TIMEOUT = 250 ms. -/
def DURATION_CMD_READ_TIMEOUT : Nat := 250

/-- DURATION_CMD_READ_EMPTY = 100 ms. -/
def DURATION_CMD_READ_EMPTY : Nat := 100

/-! ## Byte-to-sample promotion (src/audio.rs line 80, src/main.rs line 138)

The steady-state loop does: buffer.iter().map(|&b| b as i16).
A Rust integer cast truncates to the target width and reinterprets the bits
as two's complement. -/

/-- Semantics of a Rust cast of a nonnegative integer value into i16:
truncate modulo 2^16, then reinterpret as two's complement. -/
def toI16 (n : Nat) : Int :=
  if n % 65536 < 32768 then ((n % 65536 : Nat) : Int)
  else ((n % 65536 : Nat) : Int) - 65536

/-- The per-byte promotion b as i16 applied to one received byte. -/
def byteToSample (b : Fin 256) : Int := toI16 b.val

/-- frameSamples: the map in the listening loop turning the whole raw byte
buffer into i16 samples. -/
def frameSamples (buffer : List (Fin 256)) : List Int :=
  buffer.map byteToSample

/-! ## Steady-state read buffer (src/audio.rs lines 75-80)

Every iteration allocates a fresh zeroed 1024-byte buffer; port.read fills a
prefix of n bytes and the whole buffer is then processed. -/

/-- The 1024-byte buffer after a read that delivered the given bytes into its
prefix: the remainder keeps its fresh zero initialization. -/
def readBuffer (bytes : List (Fin 256)) : List (Fin 256) :=
  bytes ++ List.replicate (FFT_SAMPLE_SIZE - bytes.length) 0

/-! ## High-pass filter (src/audio.rs lines 20-31, identical in src/main.rs)

fn high_pass_filter(samples: &mut [i16], cutoff: f32):
  rc = 1/(cutoff*2*PI); dt = 1/PCM_SAMPLE_RATE; alpha = dt/(rc+dt);
  previous = samples[0] as f32;
  for each sample: filtered = alpha*((*sample as f32) - previous);
                   previous = *sample as f32; *sample = filtered as i16.
The float constant PI is kept as a parameter (f32 arithmetic modeled in ℚ). -/

/-- Semantics of a Rust f32-to-i16 cast: saturate at the i16 bounds, else
truncate toward zero. -/
def f32ToI16 (q : ℚ) : Int :=
  if q < -32768 then -32768
  else if 32767 < q then 32767
  else if 0 ≤ q then ⌊q⌋ else ⌈q⌉

/-- The alpha coefficient computed by high_pass_filter from the cutoff, with
the given value standing for std::f32::consts::PI. -/
def hpAlpha (piApprox cutoff : ℚ) : ℚ :=
  let rc := 1 / (cutoff * 2 * piApprox)
  let dt := 1 / PCM_SAMPLE_RATE
  dt / (rc + dt)

/-- The loop body of high_pass_filter: previous always becomes the raw
current sample (read before the in-place store). -/
def highPassFilterAux (alpha : ℚ) : ℚ → List Int → List Int
  | _, [] => []
  | previous, s :: rest =>
      f32ToI16 (alpha * ((s : ℚ) - previous)) :: highPassFilterAux alpha (s : ℚ) rest

/-- high_pass_filter over one frame. The source indexes samples[0], so it is
only defined on non-empty frames; the empty case is vacuous here. -/
def high_pass_filter (piApprox cutoff : ℚ) (samples : List Int) : List Int :=
  match samples with
  | [] => []
  | s0 :: _ => highPassFilterAux (hpAlpha piApprox cutoff) (s0 : ℚ) samples

/-! ## Tone detection (src/audio.rs lines 43-62)

fn detect_tone(fft_output: &[Complex<f32>]) -> bool scans bins in ascending
index order; frequency = i * (PCM_SAMPLE_RATE / len); inside the inclusive
band it computes power = re^2 + im^2 and returns true on the first bin with
TONE_MIN_POWER < power < TONE_MAX_POWER; false if the scan exhausts. -/

/-- Does bin content (re, im) at frequency freq satisfy the detection test of
the loop body? -/
def binQualifies (binWidth : ℚ) (i : Nat) (c : ℚ × ℚ) : Bool :=
  let frequency := (i : ℚ) * binWidth
  TONE_MIN_FREQ ≤ frequency && frequency ≤ TONE_MAX_FREQ &&
    TONE_MIN_POWER < c.1 ^ 2 + c.2 ^ 2 && c.1 ^ 2 + c.2 ^ 2 < TONE_MAX_POWER

/-- The enumerate loop of detect_tone, carrying the running bin index; returns
at the first qualifying bin. -/
def detectToneAux (binWidth : ℚ) : Nat → List (ℚ × ℚ) → Bool
  | _, [] => false
  | i, c :: rest =>
      if binQualifies binWidth i c then true else detectToneAux binWidth (i + 1) rest

/-- detect_tone over one FFT output frame (complex values as ℚ pairs). -/
def detect_tone (fftOutput : List (ℚ × ℚ)) : Bool :=
  detectToneAux (PCM_SAMPLE_RATE / (fftOutput.length : ℚ)) 0 fftOutput

/-! ## Detection debouncing state (src/audio.rs lines 72-95)

listen keeps two loop-local variables: prev_tone_detected (initially false)
and prev_time_detected (initially Instant::now(), i.e. the loop start time).
Per processed frame:
  if tone_detected && !prev_tone_detected {
    if prev_time_detected.elapsed() >= DETECTION_INTERVAL { callback();
      prev_time_detected = Instant::now(); }
    prev_tone_detected = true;
  } else if !tone_detected { prev_tone_detected = false; } -/

structure DetState where
  prevTone : Bool
  prevTime : Nat
deriving DecidableEq, Repr

/-- The loop-local detection state at the start of listen: no previous tone,
reference time = loop start. -/
def initDetState (start : Nat) : DetState := ⟨false, start⟩

/-- One frame of the debouncing logic: returns the updated state and whether
the callback was invoked. elapsed is the truncated subtraction now - prevTime
(a monotonic-clock elapsed is never negative). -/
def debounceStep (s : DetState) (toneDetected : Bool) (now : Nat) : DetState × Bool :=
  if toneDetected && !s.prevTone then
    if DETECTION_INTERVAL ≤ now - s.prevTime then
      (⟨true, now⟩, true)
    else
      (⟨true, s.prevTime⟩, false)
  else if !toneDetected then
    (⟨false, s.prevTime⟩, false)
  else
    (s, false)

/-- Run the debouncer over a list of frames, each a tone classification
paired with the time at which the frame is processed; returns the per-frame
callback-invocation flags. -/
def debounceFires (s : DetState) : List (Bool × Nat) → List Bool
  | [] => []
  | (t, now) :: rest =>
      ((debounceStep s t now).2) :: debounceFires (debounceStep s t now).1 rest

/-! ## The listening loop (src/audio.rs lines 64-102)

Read outcomes of port.read in the steady-state loop, as events:
Ok(n) with the n delivered bytes, or Err(e) with the error kind. The DSP
stage detect_tone(calculate_fft(high_pass_filter(samples))) is abstracted as
a function det from the promoted sample frame to the tone boolean (the FFT
itself is outside the claims settled at this level). -/

inductive IoErrorKind where
  | timedOut : IoErrorKind
  | other : Nat → IoErrorKind
deriving DecidableEq, Repr

inductive ReadEvent where
  | data : List (Fin 256) → Nat → ReadEvent
  | err : IoErrorKind → ReadEvent
deriving DecidableEq, Repr

/-- The listen loop processed over a finite stream of read events: Ok(n>0)
builds the full 1024-byte frame (read prefix plus fresh zeros), promotes each
byte, classifies, and debounces; Ok(0) does nothing; Err of kind TimedOut
sleeps and retries; any other Err returns the error. Returns the final
detection state and the times at which the callback fired. -/
def listenRun (det : List Int → Bool) (s : DetState) :
    List ReadEvent → Except IoErrorKind (DetState × List Nat)
  | [] => Except.ok (s, [])
  | ReadEvent.data bytes now :: rest =>
      if 0 < bytes.length then
        let tone := det (frameSamples (readBuffer bytes))
        let r := debounceStep s tone now
        match listenRun det r.1 rest with
        | Except.ok (sf, fires) =>
            Except.ok (sf, if r.2 then now :: fires else fires)
        | Except.error e => Except.error e
      else
        listenRun det s rest
  | ReadEvent.err k :: rest =>
      if k = IoErrorKind.timedOut then listenRun det s rest
      else Except.error k

/-! ## Response normalization (src/main.rs line 56)

The reply buffer is shown as
String::from_utf8_lossy(&buffer).chars().filter(|c| !c.is_control()).
Lossy UTF-8 decoding is modeled from the Rust standard library semantics
(well-formed sequences decode to their scalar value; each maximal invalid
subpart is replaced by U+FFFD); chars are modeled as Nat code points. -/

/-- Is the byte a UTF-8 continuation byte (0x80..=0xBF)? -/
def contByte (b : Fin 256) : Bool := 0x80 ≤ b.val && b.val ≤ 0xBF

/-- Lower bound of the second byte of a three-byte sequence (0xE0 forbids
overlong encodings). -/
def cont2Lo (b0 : Fin 256) : Nat := if b0.val = 0xE0 then 0xA0 else 0x80

/-- Upper bound of the second byte of a three-byte sequence (0xED excludes
surrogates). -/
def cont2Hi (b0 : Fin 256) : Nat := if b0.val = 0xED then 0x9F else 0xBF

/-- Lower bound of the second byte of a four-byte sequence (0xF0 forbids
overlong encodings). -/
def cont3Lo (b0 : Fin 256) : Nat := if b0.val = 0xF0 then 0x90 else 0x80

/-- Upper bound of the second byte of a four-byte sequence (0xF4 caps the
range at U+10FFFF). -/
def cont3Hi (b0 : Fin 256) : Nat := if b0.val = 0xF4 then 0x8F else 0xBF

/-- Modeled from the Rust standard library: String::from_utf8_lossy, as the
list of decoded code points. Structured with fuel (one unit per emitted
character) so the definition reduces by evaluation; the fuel is initialized
to the byte count, which every step consumes at least one of. -/
def utf8LossyDecodeAux : Nat → List (Fin 256) → List Nat
  | 0, _ => []
  | _, [] => []
  | fuel + 1, b0 :: rest =>
    if b0.val ≤ 0x7F then
      b0.val :: utf8LossyDecodeAux fuel rest
    else if b0.val < 0xC2 then
      0xFFFD :: utf8LossyDecodeAux fuel rest
    else if b0.val ≤ 0xDF then
      match rest with
      | [] => [0xFFFD]
      | b1 :: rest1 =>
        if contByte b1 then
          ((b0.val - 0xC0) * 64 + (b1.val - 0x80)) :: utf8LossyDecodeAux fuel rest1
        else
          0xFFFD :: utf8LossyDecodeAux fuel (b1 :: rest1)
    else if b0.val ≤ 0xEF then
      match rest with
      | [] => [0xFFFD]
      | b1 :: rest1 =>
        if cont2Lo b0 ≤ b1.val && b1.val ≤ cont2Hi b0 then
          match rest1 with
          | [] => [0xFFFD]
          | b2 :: rest2 =>
            if contByte b2 then
              ((b0.val - 0xE0) * 4096 + (b1.val - 0x80) * 64 + (b2.val - 0x80)) ::
                utf8LossyDecodeAux fuel rest2
            else
              0xFFFD :: utf8LossyDecodeAux fuel (b2 :: rest2)
        else
          0xFFFD :: utf8LossyDecodeAux fuel (b1 :: rest1)
    else if b0.val ≤ 0xF4 then
      match rest with
      | [] => [0xFFFD]
      | b1 :: rest1 =>
        if cont3Lo b0 ≤ b1.val && b1.val ≤ cont3Hi b0 then
          match rest1 with
          | [] => [0xFFFD]
          | b2 :: rest2 =>
            if contByte b2 then
              match rest2 with
              | [] => [0xFFFD]
              | b3 :: rest3 =>
                if contByte b3 then
                  ((b0.val - 0xF0) * 262144 + (b1.val - 0x80) * 4096 +
                      (b2.val - 0x80) * 64 + (b3.val - 0x80)) :: utf8LossyDecodeAux fuel rest3
                else
                  0xFFFD :: utf8LossyDecodeAux fuel (b3 :: rest3)
            else
              0xFFFD :: utf8LossyDecodeAux fuel (b2 :: rest2)
        else
          0xFFFD :: utf8LossyDecodeAux fuel (b1 :: rest1)
    else
      0xFFFD :: utf8LossyDecodeAux fuel rest

/-- String::from_utf8_lossy over a byte buffer. -/
def utf8LossyDecode (bs : List (Fin 256)) : List Nat :=
  utf8LossyDecodeAux bs.length bs

/-- Rust char::is_control on a code point: the Cc category,
U+0000..U+001F and U+007F..U+009F. -/
def isControlChar (c : Nat) : Bool := c < 0x20 || (0x7F ≤ c && c ≤ 0x9F)

/-- The normalization the source applies to a reply buffer before display:
lossy decode, then drop control characters (src/main.rs line 56). -/
def normalizeResponse (buffer : List (Fin 256)) : List Nat :=
  (utf8LossyDecode buffer).filter (fun c => !isControlChar c)

/-- Is the byte an ASCII alphanumeric (0-9, A-Z, a-z)? -/
def isAlphanumByte (b : Fin 256) : Bool :=
  (0x30 ≤ b.val && b.val ≤ 0x39) || (0x41 ≤ b.val && b.val ≤ 0x5A) ||
    (0x61 ≤ b.val && b.val ≤ 0x7A)

/-- The normalization as the spec words it, for comparison with the one of
the source: discard all non-alphanumeric bytes, then decode lossily. -/
def specNormalizeResponse (buffer : List (Fin 256)) : List Nat :=
  utf8LossyDecode (buffer.filter isAlphanumByte)

/-! ## The handshake sender (src/main.rs lines 24-62)

fn send_commands(port, commands: Vec<&str>) -> Result<()>. Per command:
write the command text with a carriage-return terminator; then poll: if the
2-second deadline has passed, stop with an empty buffer; ask bytes_to_read
(its own error propagates); if positive, read: a positive read ends the poll
with those bytes, a zero read retries at once, a TimedOut read error sleeps
250 ms, any other read error propagates; if zero bytes are available, sleep
100 ms. The reply is only logged (see normalizeResponse); nothing is
compared, and the next command is always attempted. The link is modeled as a
per-command list of poll events and a per-command write outcome; the ok
result pairs each sent text with its reply buffer. -/

inductive ReadAttempt where
  | got : List (Fin 256) → ReadAttempt
  | err : IoErrorKind → ReadAttempt
deriving DecidableEq, Repr

inductive PollEvent where
  | avail : ReadAttempt → PollEvent
  | noData : PollEvent
  | countErr : IoErrorKind → PollEvent
deriving DecidableEq, Repr

/-- The response poll loop of send_commands for one command, over the events
the link produces, carrying the elapsed milliseconds since the write. -/
def pollLoop : List PollEvent → Nat → Except IoErrorKind (List (Fin 256))
  | [], _ => Except.ok []
  | e :: rest, elapsed =>
    if DURATION_IO_TIMEOUT < elapsed then Except.ok []
    else
      match e with
      | PollEvent.avail (ReadAttempt.got bytes) =>
          if 0 < bytes.length then Except.ok bytes
          else pollLoop rest elapsed
      | PollEvent.avail (ReadAttempt.err k) =>
          if k = IoErrorKind.timedOut then pollLoop rest (elapsed + DURATION_CMD_READ_TIMEOUT)
          else Except.error k
      | PollEvent.countErr k => Except.error k
      | PollEvent.noData => pollLoop rest (elapsed + DURATION_CMD_READ_EMPTY)

/-- The command iteration of send_commands, indexed so each command sees its
own write outcome and poll events. -/
def sendCommandsAux (writes : Nat → Option IoErrorKind) (link : Nat → List PollEvent) :
    Nat → List String → Except IoErrorKind (List (String × List (Fin 256)))
  | _, [] => Except.ok []
  | idx, cmd :: rest =>
    match writes idx with
    | some k => Except.error k
    | none =>
      match pollLoop (link idx) 0 with
      | Except.error k => Except.error k
      | Except.ok buffer =>
        match sendCommandsAux writes link (idx + 1) rest with
        | Except.error k => Except.error k
        | Except.ok results => Except.ok ((cmd ++ "\r", buffer) :: results)

/-- send_commands over a command list. -/
def send_commands (writes : Nat → Option IoErrorKind) (link : Nat → List PollEvent)
    (commands : List String) : Except IoErrorKind (List (String × List (Fin 256))) :=
  sendCommandsAux writes link 0 commands

/-- The handshake command list passed to send_commands by main
(src/main.rs lines 116-125), in source order. -/
def atCommands : List String :=
  ["ATE0", "ATZ", "AT", "AT+FCLASS=8", "AT+VLS=1", "AT+VGR=3", "AT+VSM=1,8000", "AT+VRX"]

/-! ## Shared concrete inputs -/

/-- The raw reply bytes CR LF O K CR LF. -/
def crlfOKBytes : List (Fin 256) := [13, 10, 79, 75, 13, 10]

/-- The raw reply bytes E R R O R. -/
def replyERRORBytes : List (Fin 256) := [69, 82, 82, 79, 82]

/-- The raw reply bytes SPACE O K. -/
def spaceOKBytes : List (Fin 256) := [32, 79, 75]

/-! ## Theorems -/

/-- Claim C4 counterexample: the claim puts ATZ first, ATE0 second and AT
seventh; the source (src/main.rs lines 116-125) sends ATE0 first, ATZ second
and AT third. -/
theorem c4_counterexample :
    atCommands ≠
      ["ATZ", "ATE0", "AT+FCLASS=8", "AT+VLS=1", "AT+VGR=3", "AT+VSM=1,8000", "AT", "AT+VRX"] ∧
    atCommands.getD 0 "X" = "ATE0" ∧ atCommands.getD 2 "X" = "AT" := by
  refine ⟨?_, rfl, rfl⟩
  decide

/-- Claim C4 (amended): during the handshake the program sends exactly the
eight AT commands in the source order ATE0, ATZ, AT, AT+FCLASS=8, AT+VLS=1,
AT+VGR=3, AT+VSM=1,8000, AT+VRX, each with a carriage-return terminator
appended: over a link that answers every command, the transcript of
send_commands is exactly these eight texts in this order. -/
theorem c4_handshake_transcript :
    send_commands (fun _ => none)
        (fun _ => [PollEvent.avail (ReadAttempt.got crlfOKBytes)]) atCommands =
      Except.ok
        [("ATE0\r", crlfOKBytes), ("ATZ\r", crlfOKBytes), ("AT\r", crlfOKBytes),
         ("AT+FCLASS=8\r", crlfOKBytes), ("AT+VLS=1\r", crlfOKBytes),
         ("AT+VGR=3\r", crlfOKBytes), ("AT+VSM=1,8000\r", crlfOKBytes),
         ("AT+VRX\r", crlfOKBytes)] := by
  rfl

/-- Claim C5 counterexample: normalization does not discard every
non-alphanumeric byte. On the reply SPACE O K the source keeps the space
(code point 32), which is not alphanumeric; the normalization the spec
describes would drop it. -/
theorem c5_counterexample :
    normalizeResponse spaceOKBytes = [32, 79, 75] ∧
    isAlphanumByte 32 = false ∧
    specNormalizeResponse spaceOKBytes = [79, 75] := by
  decide

/-- Claim C5 (amended): response normalization decodes the accumulated reply
lossily and discards exactly the control characters (not all non-alphanumeric
bytes); in particular the raw bytes CR LF O K CR LF normalize to O K, and no
control character ever survives normalization. -/
theorem c5_normalization :
    normalizeResponse crlfOKBytes = [79, 75] ∧
    ∀ buffer : List (Fin 256), ∀ c ∈ normalizeResponse buffer, isControlChar c = false := by
  refine ⟨by decide, ?_⟩
  intro buffer c hc
  have h := List.of_mem_filter hc
  simpa using h

/-- Witness for C5: the code point 79 survives normalization of
CR LF O K CR LF and is not a control character. -/
theorem c5_witness :
    79 ∈ normalizeResponse crlfOKBytes ∧ isControlChar 79 = false :=
  ⟨by decide, c5_normalization.2 crlfOKBytes 79 (by decide)⟩

/-- The promotion of one received byte is plain zero-extension: the sample
equals the unsigned byte value. -/
theorem byteToSample_eq (b : Fin 256) : byteToSample b = (b.val : Int) := by
  have hb := b.isLt
  unfold byteToSample toI16
  rw [Nat.mod_eq_of_lt (by omega)]
  rw [if_pos (by omega)]

/-- Claim C9 (confirmed): every audio sample is one raw byte promoted to i16
without sign-extension or scaling, so it equals the unsigned byte value and
every sample of a frame lies in the interval from 0 to 255, never negative. -/
theorem c9_byte_promotion :
    (∀ b : Fin 256, byteToSample b = (b.val : Int) ∧
      0 ≤ byteToSample b ∧ byteToSample b ≤ 255) ∧
    ∀ bytes : List (Fin 256), ∀ s ∈ frameSamples bytes, 0 ≤ s ∧ s ≤ 255 := by
  have hb : ∀ b : Fin 256, byteToSample b = (b.val : Int) ∧
      0 ≤ byteToSample b ∧ byteToSample b ≤ 255 := by
    intro b
    have h := byteToSample_eq b
    have h255 : b.val ≤ 255 := Nat.lt_succ_iff.mp b.isLt
    refine ⟨h, ?_, ?_⟩
    · rw [h]; exact Int.ofNat_nonneg _
    · rw [h]; exact_mod_cast h255
  refine ⟨hb, ?_⟩
  intro bytes s hs
  rcases List.mem_map.mp hs with ⟨b, _, rfl⟩
  exact (hb b).2

/-- Witness for C9: the byte 200 becomes the sample 200, inside the bounds. -/
theorem c9_witness :
    (200 : Int) ∈ frameSamples [(200 : Fin 256)] ∧
      0 ≤ (200 : Int) ∧ (200 : Int) ≤ 255 :=
  ⟨by decide, c9_byte_promotion.2 [(200 : Fin 256)] 200 (by decide)⟩

/-- Claim C2 counterexample: the first rising edge after the listening loop
starts does not always fire. The reference time starts at the loop start (it
is never unset), so a rising edge 1 second after the start fires nothing. -/
theorem c2_counterexample :
    debounceFires (initDetState 0) [(false, 0), (true, 1000)] = [false, false] := by
  decide

/-- Claim C2 (amended): on a rising edge the trigger callback is invoked iff
at least the 5-second minimum interval has elapsed since the reference time,
which is initialized to the loop start rather than unset; consequently the
first rising edge fires iff it occurs at least 5 seconds after loop start. -/
theorem c2_debounce_guard :
    (∀ (s : DetState) (t : Bool) (now : Nat),
        (debounceStep s t now).2 =
          (t && !s.prevTone && decide (DETECTION_INTERVAL ≤ now - s.prevTime))) ∧
    ∀ start now : Nat,
      debounceFires (initDetState start) [(true, now)] =
        [decide (DETECTION_INTERVAL ≤ now - start)] := by
  have hstep : ∀ (s : DetState) (t : Bool) (now : Nat),
      (debounceStep s t now).2 =
        (t && !s.prevTone && decide (DETECTION_INTERVAL ≤ now - s.prevTime)) := by
    intro s t now
    unfold debounceStep
    cases t <;> cases hp : s.prevTone <;>
      by_cases hI : DETECTION_INTERVAL ≤ now - s.prevTime <;>
        simp [hp, hI]
  refine ⟨hstep, ?_⟩
  intro start now
  show ((debounceStep (initDetState start) true now).2) :: _ = _
  rw [hstep]
  by_cases hI : DETECTION_INTERVAL ≤ now - start <;>
    simp [initDetState, debounceFires, hI]

/-- Claim C8 (confirmed): in the listening loop a read error of kind timeout
only causes a retry (the run over the remaining events is unchanged), while a
read error of any other kind terminates listen with exactly that error. -/
theorem c8_read_error_handling :
    (∀ (det : List Int → Bool) (s : DetState) (rest : List ReadEvent),
        listenRun det s (ReadEvent.err IoErrorKind.timedOut :: rest) = listenRun det s rest) ∧
    ∀ (det : List Int → Bool) (s : DetState) (k : IoErrorKind) (rest : List ReadEvent),
      k ≠ IoErrorKind.timedOut →
        listenRun det s (ReadEvent.err k :: rest) = Except.error k := by
  constructor
  · intro det s rest
    simp [listenRun]
  · intro det s k rest hk
    simp [listenRun, hk]

/-- Witness for C8: a hard error event ends a concrete run with that error,
and a timeout event is transparent on a concrete run. -/
theorem c8_witness :
    listenRun (fun _ => false) (initDetState 0) [ReadEvent.err (IoErrorKind.other 5)] =
      Except.error (IoErrorKind.other 5) ∧
    listenRun (fun _ => false) (initDetState 0) [ReadEvent.err IoErrorKind.timedOut] =
      listenRun (fun _ => false) (initDetState 0) [] :=
  ⟨c8_read_error_handling.2 (fun _ => false) (initDetState 0) (IoErrorKind.other 5) []
      (by decide),
   c8_read_error_handling.1 (fun _ => false) (initDetState 0) []⟩

/-- The scan of detect_tone returns true exactly when some bin at or after
the running index qualifies. -/
theorem detectToneAux_eq_true_iff (w : ℚ) :
    ∀ (l : List (ℚ × ℚ)) (i0 : Nat),
      detectToneAux w i0 l = true ↔
        ∃ j, j < l.length ∧ binQualifies w (i0 + j) (l.getD j (0, 0)) = true := by
  intro l
  induction l with
  | nil => intro i0; simp [detectToneAux]
  | cons c rest ih =>
    intro i0
    by_cases h : binQualifies w i0 c = true
    · simp only [detectToneAux, h, if_true, true_iff]
      exact ⟨0, by simp, by simpa using h⟩
    · simp only [detectToneAux, h, if_false, Bool.false_eq_true]
      rw [ih (i0 + 1)]
      constructor
      · rintro ⟨j, hj, hq⟩
        refine ⟨j + 1, by simpa using Nat.succ_lt_succ hj, ?_⟩
        have he : i0 + 1 + j = i0 + (j + 1) := by omega
        rw [he] at hq
        simpa using hq
      · rintro ⟨j, hj, hq⟩
        cases j with
        | zero => simp at hq; exact absurd hq h
        | succ j =>
          refine ⟨j, by simpa using Nat.lt_of_succ_lt_succ hj, ?_⟩
          have he : i0 + 1 + j = i0 + (j + 1) := by omega
          rw [he]
          simpa using hq

/-- Claim C6 (confirmed): detect_tone returns true exactly when some FFT bin
has center frequency index times sample rate over frame length inside the
band bounds inclusively and power strictly inside the power window; the scan
of the definition visits bins in ascending index order and stops at the first
such bin. -/
theorem c6_detect_tone_iff (fftOutput : List (ℚ × ℚ)) :
    detect_tone fftOutput = true ↔
      ∃ j, j < fftOutput.length ∧
        (TONE_MIN_FREQ ≤ (j : ℚ) * (PCM_SAMPLE_RATE / (fftOutput.length : ℚ)) ∧
         (j : ℚ) * (PCM_SAMPLE_RATE / (fftOutput.length : ℚ)) ≤ TONE_MAX_FREQ ∧
         TONE_MIN_POWER < (fftOutput.getD j (0, 0)).1 ^ 2 + (fftOutput.getD j (0, 0)).2 ^ 2 ∧
         (fftOutput.getD j (0, 0)).1 ^ 2 + (fftOutput.getD j (0, 0)).2 ^ 2 < TONE_MAX_POWER) := by
  unfold detect_tone
  rw [detectToneAux_eq_true_iff]
  constructor
  · rintro ⟨j, hj, hq⟩
    refine ⟨j, hj, ?_⟩
    simp only [binQualifies, Bool.and_eq_true, decide_eq_true_eq] at hq
    simp only [Nat.zero_add] at hq
    exact ⟨hq.1.1.1, hq.1.1.2, hq.1.2, hq.2⟩
  · rintro ⟨j, hj, h1, h2, h3, h4⟩
    refine ⟨j, hj, ?_⟩
    simp only [binQualifies, Bool.and_eq_true, decide_eq_true_eq, Nat.zero_add]
    exact ⟨⟨⟨h1, h2⟩, h3⟩, h4⟩

/-- The filter loop keeps the frame length. -/
theorem highPassFilterAux_length (alpha : ℚ) :
    ∀ (l : List Int) (p : ℚ), (highPassFilterAux alpha p l).length = l.length := by
  intro l
  induction l with
  | nil => intro p; rfl
  | cons s rest ih => intro p; simp [highPassFilterAux, ih]

/-- Element formula of the filter loop: each output is the cast of alpha
times the difference between the current raw sample and the previous raw
sample (the carried value for index zero). -/
theorem highPassFilterAux_getD (alpha : ℚ) :
    ∀ (l : List Int) (p : ℚ) (i : Nat), i < l.length →
      (highPassFilterAux alpha p l).getD i 1 =
        f32ToI16 (alpha * ((l.getD i 0 : ℚ) -
          if i = 0 then p else (l.getD (i - 1) 0 : ℚ))) := by
  intro l
  induction l with
  | nil => intro p i hi; simp at hi
  | cons s rest ih =>
    intro p i hi
    cases i with
    | zero => simp [highPassFilterAux]
    | succ j =>
      have hj : j < rest.length := by simpa using Nat.lt_of_succ_lt_succ hi
      have h := ih (s : ℚ) j hj
      simp only [highPassFilterAux, List.getD_cons_succ]
      rw [h]
      cases j with
      | zero => simp
      | succ k => simp

/-- Claim C7 (confirmed): for every non-empty frame the high-pass filter
output has the same length as the input, output sample i is the i16 cast of
alpha times the difference of raw sample i and raw sample i-1 (raw history,
not filtered history), and output sample 0 is 0 because the carried previous
value is initialized to the first raw sample of the frame itself; the
definition is a pure function of one frame, so no state crosses frames. -/
theorem c7_high_pass_filter (piApprox cutoff : ℚ) (samples : List Int) (i : Nat)
    (hi : i < samples.length) :
    (high_pass_filter piApprox cutoff samples).length = samples.length ∧
    (high_pass_filter piApprox cutoff samples).getD i 1 =
      f32ToI16 (hpAlpha piApprox cutoff *
        ((samples.getD i 0 : ℚ) - (samples.getD (i - 1) 0 : ℚ))) ∧
    (high_pass_filter piApprox cutoff samples).getD 0 1 = 0 := by
  match samples, hi with
  | s0 :: rest, hi =>
    have hlen : (high_pass_filter piApprox cutoff (s0 :: rest)).length =
        (s0 :: rest).length := by
      simp [high_pass_filter, highPassFilterAux_length]
    have hget := highPassFilterAux_getD (hpAlpha piApprox cutoff) (s0 :: rest) (s0 : ℚ) i hi
    have h0 : (high_pass_filter piApprox cutoff (s0 :: rest)).getD 0 1 = 0 := by
      have := highPassFilterAux_getD (hpAlpha piApprox cutoff) (s0 :: rest) (s0 : ℚ) 0
        (by simp)
      simp only [if_pos rfl, List.getD_cons_zero] at this
      simp only [high_pass_filter]
      rw [this]
      simp only [f32ToI16]
      norm_num
    refine ⟨hlen, ?_, h0⟩
    simp only [high_pass_filter]
    rw [hget]
    cases i with
    | zero => simp
    | succ j => simp

/-- Witness for C7: at the concrete pi stand-in 3, cutoff 3000 and the frame
[5, 10], alpha is 9/13 and output sample 1 is the cast of 9/13 times 5. -/
theorem c7_witness :
    1 < ([5, 10] : List Int).length ∧
    ((high_pass_filter 3 3000 [5, 10]).length = ([5, 10] : List Int).length ∧
     (high_pass_filter 3 3000 [5, 10]).getD 1 1 =
       f32ToI16 (hpAlpha 3 3000 *
         ((([5, 10] : List Int).getD 1 0 : ℚ) - (([5, 10] : List Int).getD 0 0 : ℚ))) ∧
     (high_pass_filter 3 3000 [5, 10]).getD 0 1 = 0) :=
  ⟨by decide, c7_high_pass_filter 3 3000 [5, 10] 1 (by decide)⟩

/-- Claim C10 (confirmed): when a steady-state read returns n bytes with
0 < n ≤ 1024, the frame still has exactly 1024 entries, positions from n on
are the zeros of the fresh buffer, and the listening loop classifies exactly
that full padded frame. -/
theorem c10_full_frame (bytes : List (Fin 256)) (now : Nat) (det : List Int → Bool)
    (s : DetState) (h1 : 0 < bytes.length) (h2 : bytes.length ≤ FFT_SAMPLE_SIZE) :
    (readBuffer bytes).length = FFT_SAMPLE_SIZE ∧
    (∀ i : Nat, bytes.length ≤ i → i < FFT_SAMPLE_SIZE → (readBuffer bytes).getD i 1 = 0) ∧
    listenRun det s [ReadEvent.data bytes now] =
      Except.ok ((debounceStep s (det (frameSamples (readBuffer bytes))) now).1,
        if (debounceStep s (det (frameSamples (readBuffer bytes))) now).2
        then [now] else []) := by
  refine ⟨?_, ?_, ?_⟩
  · simp [readBuffer]
    omega
  · intro i hilo hihi
    have hrep : i - bytes.length < FFT_SAMPLE_SIZE - bytes.length := by omega
    simp only [readBuffer]
    rw [List.getD_eq_getElem?_getD, List.getElem?_append_right hilo]
    simp [List.getElem?_replicate, hrep]
  · simp [listenRun, h1]

/-- Witness for C10: a three-byte read produces the 1024-entry frame, a zero
at position 3, and the single-event run feeding the padded frame to the
classifier. -/
theorem c10_witness :
    0 < ([1, 2, 3] : List (Fin 256)).length ∧
    ([1, 2, 3] : List (Fin 256)).length ≤ FFT_SAMPLE_SIZE ∧
    ((readBuffer [1, 2, 3]).length = FFT_SAMPLE_SIZE ∧
     (∀ i : Nat, ([1, 2, 3] : List (Fin 256)).length ≤ i → i < FFT_SAMPLE_SIZE →
        (readBuffer [1, 2, 3]).getD i 1 = 0) ∧
     listenRun (fun _ => false) (initDetState 0) [ReadEvent.data [1, 2, 3] 0] =
       Except.ok
         ((debounceStep (initDetState 0)
             ((fun _ => false) (frameSamples (readBuffer [1, 2, 3]))) 0).1,
          if (debounceStep (initDetState 0)
              ((fun _ => false) (frameSamples (readBuffer [1, 2, 3]))) 0).2
          then [0] else [])) :=
  ⟨by decide, by decide,
    c10_full_frame [1, 2, 3] 0 (fun _ => false) (initDetState 0) (by decide) (by decide)⟩

/-- After a frame is processed, the carried previous-tone flag equals the
tone of that frame. -/
theorem debounceStep_prevTone (s : DetState) (t : Bool) (now : Nat) :
    ((debounceStep s t now).1).prevTone = t := by
  unfold debounceStep
  cases t <;> cases hp : s.prevTone <;>
    by_cases hI : DETECTION_INTERVAL ≤ now - s.prevTime <;> simp [hp, hI]

/-- A fired frame is a rising edge whose elapsed guard passed, and it stamps
the reference time with the frame time. -/
theorem debounceStep_fired (s : DetState) (t : Bool) (now : Nat)
    (h : (debounceStep s t now).2 = true) :
    t = true ∧ s.prevTone = false ∧ s.prevTime + DETECTION_INTERVAL ≤ now ∧
      ((debounceStep s t now).1).prevTime = now := by
  unfold debounceStep at *
  cases t <;> cases hp : s.prevTone <;>
    by_cases hI : DETECTION_INTERVAL ≤ now - s.prevTime <;>
      simp [hp, hI] at h ⊢ <;> simp [DETECTION_INTERVAL] at hI ⊢ <;> omega

/-- The carried reference time never decreases. -/
theorem debounceStep_prevTime_mono (s : DetState) (t : Bool) (now : Nat) :
    s.prevTime ≤ ((debounceStep s t now).1).prevTime := by
  unfold debounceStep
  cases t <;> cases hp : s.prevTone <;>
    by_cases hI : DETECTION_INTERVAL ≤ now - s.prevTime <;>
      simp [hp, hI] <;> simp [DETECTION_INTERVAL] at hI <;> omega

/-- Every fire in a run happens at least one cooldown interval after the
reference time of the starting state. -/
theorem debounceFires_fire_time :
    ∀ (frames : List (Bool × Nat)) (s : DetState) (k : Nat),
      (debounceFires s frames).getD k false = true →
      s.prevTime + DETECTION_INTERVAL ≤ (frames.getD k (false, 0)).2 := by
  intro frames
  induction frames with
  | nil => intro s k h; simp [debounceFires] at h
  | cons f rest ih =>
    intro s k h
    obtain ⟨t, now⟩ := f
    cases k with
    | zero =>
      simp only [debounceFires, List.getD_cons_zero] at h
      exact (debounceStep_fired s t now h).2.2.1
    | succ j =>
      simp only [debounceFires, List.getD_cons_succ] at h ⊢
      have hm := debounceStep_prevTime_mono s t now
      have := ih (debounceStep s t now).1 j h
      omega

/-- Claim C3 (confirmed): in every run of the debouncer from the listening
loop start state, the callback fires only on a false-to-true transition of
tone presence (the preceding frame tone, or the initial false, is false), and
two fires are always at least one 5-second cooldown interval apart, however
many consecutive frames carry the tone. -/
theorem c3_trigger_invariant (start : Nat) (frames : List (Bool × Nat)) :
    (∀ k, (debounceFires (initDetState start) frames).getD k false = true →
        (frames.getD k (false, 0)).1 = true ∧
        (0 < k → (frames.getD (k - 1) (false, 0)).1 = false)) ∧
    (∀ i j, i < j →
        (debounceFires (initDetState start) frames).getD i false = true →
        (debounceFires (initDetState start) frames).getD j false = true →
        (frames.getD i (false, 0)).2 + DETECTION_INTERVAL ≤ (frames.getD j (false, 0)).2) := by
  have hrise : ∀ (fr : List (Bool × Nat)) (s : DetState) (k : Nat),
      (debounceFires s fr).getD k false = true →
      (fr.getD k (false, 0)).1 = true ∧ (k = 0 → s.prevTone = false) ∧
        (0 < k → (fr.getD (k - 1) (false, 0)).1 = false) := by
    intro fr
    induction fr with
    | nil => intro s k h; simp [debounceFires] at h
    | cons f rest ih =>
      intro s k h
      obtain ⟨t, now⟩ := f
      cases k with
      | zero =>
        simp only [debounceFires, List.getD_cons_zero] at h ⊢
        obtain ⟨ht, hp, _, _⟩ := debounceStep_fired s t now h
        exact ⟨ht, fun _ => hp, fun hk => absurd hk (by omega)⟩
      | succ j =>
        simp only [debounceFires, List.getD_cons_succ] at h
        obtain ⟨h1, h2, h3⟩ := ih (debounceStep s t now).1 j h
        refine ⟨by simpa using h1, fun hk => by omega, fun _ => ?_⟩
        cases j with
        | zero =>
          have hpt := debounceStep_prevTone s t now
          have := h2 rfl
          simp only [Nat.add_sub_cancel, List.getD_cons_zero]
          rw [← hpt, this]
        | succ m =>
          have := h3 (by omega)
          simpa using this
  have hcool : ∀ (fr : List (Bool × Nat)) (s : DetState) (i j : Nat), i < j →
      (debounceFires s fr).getD i false = true →
      (debounceFires s fr).getD j false = true →
      (fr.getD i (false, 0)).2 + DETECTION_INTERVAL ≤ (fr.getD j (false, 0)).2 := by
    intro fr
    induction fr with
    | nil => intro s i j hij hi hj; simp [debounceFires] at hi
    | cons f rest ih =>
      intro s i j hij hi hj
      obtain ⟨t, now⟩ := f
      cases i with
      | zero =>
        obtain ⟨j', rfl⟩ : ∃ j', j = j' + 1 := ⟨j - 1, by omega⟩
        simp only [debounceFires, List.getD_cons_zero, List.getD_cons_succ] at hi hj ⊢
        have hstamp := (debounceStep_fired s t now hi).2.2.2
        have := debounceFires_fire_time rest (debounceStep s t now).1 j' hj
        omega
      | succ i' =>
        obtain ⟨j', rfl⟩ : ∃ j', j = j' + 1 := ⟨j - 1, by omega⟩
        simp only [debounceFires, List.getD_cons_succ] at hi hj ⊢
        exact ih (debounceStep s t now).1 i' j' (by omega) hi hj
  refine ⟨fun k hk => ?_, hcool frames (initDetState start)⟩
  obtain ⟨h1, _, h3⟩ := hrise frames (initDetState start) k hk
  exact ⟨h1, h3⟩

/-- Witness for C3: a run with fires at frames 0 and 2 whose times are a full
cooldown apart. -/
theorem c3_witness :
    (debounceFires (initDetState 0) [(true, 5000), (false, 6000), (true, 20000)]).getD 0 false
        = true ∧
    (debounceFires (initDetState 0) [(true, 5000), (false, 6000), (true, 20000)]).getD 2 false
        = true ∧
    (([(true, 5000), (false, 6000), (true, 20000)] :
        List (Bool × Nat)).getD 0 (false, 0)).2 + DETECTION_INTERVAL ≤
      (([(true, 5000), (false, 6000), (true, 20000)] :
        List (Bool × Nat)).getD 2 (false, 0)).2 :=
  ⟨by decide, by decide,
    (c3_trigger_invariant 0 [(true, 5000), (false, 6000), (true, 20000)]).2 0 2
      (by decide) (by decide) (by decide)⟩

/-- Poll events on which the poll loop cannot abort: everything except an
error of the byte-count query and a non-timeout read error. -/
def PollEvent.benign : PollEvent → Bool
  | PollEvent.avail (ReadAttempt.err k) => decide (k = IoErrorKind.timedOut)
  | PollEvent.countErr _ => false
  | _ => true

/-- Over benign events the poll loop always completes with some buffer. -/
theorem pollLoop_benign_ok :
    ∀ (events : List PollEvent) (elapsed : Nat),
      events.all PollEvent.benign = true →
      ∃ buf, pollLoop events elapsed = Except.ok buf := by
  intro events
  induction events with
  | nil => intro elapsed _; exact ⟨[], rfl⟩
  | cons e rest ih =>
    intro elapsed hall
    simp only [List.all_cons, Bool.and_eq_true] at hall
    obtain ⟨he, hrest⟩ := hall
    by_cases ht : DURATION_IO_TIMEOUT < elapsed
    · exact ⟨[], by simp [pollLoop, ht]⟩
    · match e, he with
      | PollEvent.avail (ReadAttempt.got bytes), _ =>
        by_cases hb : 0 < bytes.length
        · exact ⟨bytes, by simp [pollLoop, ht, hb]⟩
        · obtain ⟨buf, hbuf⟩ := ih elapsed hrest
          exact ⟨buf, by simp [pollLoop, ht, hb, hbuf]⟩
      | PollEvent.avail (ReadAttempt.err k), he =>
        have hk : k = IoErrorKind.timedOut := by simpa [PollEvent.benign] using he
        obtain ⟨buf, hbuf⟩ := ih (elapsed + DURATION_CMD_READ_TIMEOUT) hrest
        exact ⟨buf, by simp [pollLoop, ht, hk, hbuf]⟩
      | PollEvent.noData, _ =>
        obtain ⟨buf, hbuf⟩ := ih (elapsed + DURATION_CMD_READ_EMPTY) hrest
        exact ⟨buf, by simp [pollLoop, ht, hbuf]⟩

/-- The command iteration under benign links: every command is sent and the
whole call returns ok, whatever the replies contain. -/
theorem sendCommandsAux_ok :
    ∀ (cmds : List String) (writes : Nat → Option IoErrorKind)
      (link : Nat → List PollEvent) (idx : Nat),
      (∀ i, writes i = none) → (∀ i, (link i).all PollEvent.benign = true) →
      ∃ results, sendCommandsAux writes link idx cmds = Except.ok results ∧
        results.map Prod.fst = cmds.map (fun c => c ++ "\r") := by
  intro cmds
  induction cmds with
  | nil => intro writes link idx _ _; exact ⟨[], rfl, rfl⟩
  | cons cmd rest ih =>
    intro writes link idx hw hl
    obtain ⟨buf, hbuf⟩ := pollLoop_benign_ok (link idx) 0 (hl idx)
    obtain ⟨results, hres, hmap⟩ := ih writes link (idx + 1) hw hl
    refine ⟨(cmd ++ "\r", buf) :: results, ?_, ?_⟩
    · simp only [sendCommandsAux, hw idx, hbuf, hres]
    · simp [hmap]

/-- Claim C1 (amended): send_commands performs no reply validation at all.
For every command list and every link on which the writes and reads succeed,
it sends every command in order with its carriage-return terminator and
returns ok, regardless of what each reply contains and even when a reply is
empty; it can only fail through a hard serial error. The failure-on-mismatch
and failure-on-no-reply behavior of the claim does not exist in the source:
the commands carry no expected replies. -/
theorem c1_no_reply_validation (writes : Nat → Option IoErrorKind)
    (link : Nat → List PollEvent) (commands : List String)
    (hw : ∀ i, writes i = none) (hl : ∀ i, (link i).all PollEvent.benign = true) :
    ∃ results, send_commands writes link commands = Except.ok results ∧
      results.map Prod.fst = commands.map (fun c => c ++ "\r") :=
  sendCommandsAux_ok commands writes link 0 hw hl

/-- Witness for C1: a link that answers the single command AT with ERROR
still yields ok with the transcript AT CR. -/
theorem c1_witness :
    ∃ results,
      send_commands (fun _ => none)
          (fun _ => [PollEvent.avail (ReadAttempt.got replyERRORBytes)]) ["AT"] =
        Except.ok results ∧
      results.map Prod.fst = (["AT"] : List String).map (fun c => c ++ "\r") :=
  c1_no_reply_validation (fun _ => none)
    (fun _ => [PollEvent.avail (ReadAttempt.got replyERRORBytes)]) ["AT"]
    (fun _ => rfl) (fun _ => rfl)

/-- Claim C1 counterexample: with the command AT, whose expected reply per
the spec is OK, a link that replies ERROR makes send_commands return ok (the
outcome the claim reserves for an all-match run), not a failure; the reply
does not normalize to the normalized OK reply. -/
theorem c1_counterexample :
    send_commands (fun _ => none)
        (fun _ => [PollEvent.avail (ReadAttempt.got replyERRORBytes)]) ["AT"] =
      Except.ok [("AT\r", replyERRORBytes)] ∧
    normalizeResponse replyERRORBytes ≠ normalizeResponse crlfOKBytes := by
  exact ⟨rfl, by decide⟩

end AlarmModem
